import Mathlib

/-!
# Verification of the openslides-auth-service storage adapters

This development embeds the two Redis-backed storage adapters of the
repository (`RedisDatabaseAdapter` in the unnamed source file, and the
`DatabaseAdapter` variant bundled in `Routes.ts`) as pure Lean functions
over an explicit store state, together with the JSON codec
(`JSON.stringify` / `JSON.parse`) that every value passes through.

Modelling conventions:
* JS strings are modelled as `List Char` (Unicode scalar values; lone
  UTF-16 surrogates are not representable and never arise from the
  encoder).
* JS numbers are modelled as integers (`Int`): the adapters only move
  values through `JSON.stringify`/`JSON.parse`, and the fraction/exponent
  productions of the JSON grammar are outside the model, as is IEEE
  floating point.
* The Redis store is an association list from physical keys to stored
  textual payloads; `SET` overwrites in place or appends, `DEL` removes
  the key and reports whether it existed, `KEYS p*` enumerates keys in
  store order.  Glob metacharacters inside a pattern are not modelled:
  patterns produced by the adapters are treated literally, so `p*`
  matches exactly the keys having `p` as a string prefix.
* A rejected promise (a thrown `JSON.parse` error) is modelled by
  `Option.none`.
-/

mutual
/-- JS values that can flow through `JSON.stringify`/`JSON.parse`
(null, booleans, integer numbers, strings, arrays, objects). -/
inductive Json where
  | null : Json
  | bool : Bool → Json
  | num : Int → Json
  | str : List Char → Json
  | arr : JsonList → Json
  | obj : JsonObj → Json

inductive JsonList where
  | nil : JsonList
  | cons : Json → JsonList → JsonList

inductive JsonObj where
  | nil : JsonObj
  | cons : List Char → Json → JsonObj → JsonObj
end

deriving instance DecidableEq for Json
deriving instance DecidableEq for JsonList
deriving instance DecidableEq for JsonObj

/-- Shorthand for writing JS string literals in the model. -/
def chars (s : String) : List Char := s.data

/-- JS truthiness of a parsed JSON value: `null`, `false`, `0` and the
empty string are falsy; every other value (all arrays and objects
included) is truthy. -/
def Json.truthy : Json → Bool
  | .null => false
  | .bool b => b
  | .num i => decide (i ≠ 0)
  | .str s => decide (s ≠ [])
  | .arr _ => true
  | .obj _ => true

/-- First-match field lookup on a JS object (JS objects have unique
keys, which the claims assume via `JsonObj.nodupKeys`). -/
def JsonObj.lookup : JsonObj → List Char → Option Json
  | .nil, _ => none
  | .cons k v rest, f => if k = f then some v else rest.lookup f

/-- Whether a field name occurs in an object. -/
def JsonObj.hasKey : JsonObj → List Char → Bool
  | .nil, _ => false
  | .cons k _ rest, f => k = f || rest.hasKey f

/-- Property assignment `target[f] = v`: overwrite the first matching
field in place, otherwise append the new field at the end (JS property
insertion order). -/
def JsonObj.setField : JsonObj → List Char → Json → JsonObj
  | .nil, f, v => .cons f v .nil
  | .cons k w rest, f, v =>
    if k = f then .cons k v rest else .cons k w (rest.setField f v)

/-- `Object.assign(target, src)`: assign every field of `src` onto
`target` in order. -/
def JsonObj.assign : JsonObj → JsonObj → JsonObj
  | r, .nil => r
  | r, .cons f v rest => JsonObj.assign (r.setField f v) rest

/-- JS object keys are pairwise distinct. -/
def JsonObj.nodupKeys : JsonObj → Bool
  | .nil => true
  | .cons k _ rest => !rest.hasKey k && rest.nodupKeys

/-- `Object.assign` on a non-object target: JS boxes the primitive, and
`JSON.stringify` of the boxed wrapper recovers the primitive unchanged,
so the observable stored value keeps its shape.  The claims below only
exercise object targets and the absent branch. -/
def Json.assignObj : Json → JsonObj → Json
  | .obj r, p => .obj (r.assign p)
  | other, _ => other

/-! ## The serialization codec: `JSON.stringify` -/

/-- Decimal digit predicate used by the number lexer. -/
def isDigit (c : Char) : Bool := '0' ≤ c && c ≤ '9'

/-- The decimal digit character for a digit value `0..9`. -/
def digitChar : Nat → Char
  | 0 => '0' | 1 => '1' | 2 => '2' | 3 => '3' | 4 => '4'
  | 5 => '5' | 6 => '6' | 7 => '7' | 8 => '8' | _ => '9'

/-- Numeric value of a decimal digit character. -/
def digitVal (c : Char) : Nat := c.toNat - 48

/-- Recursion worker for `natChars`: emit the decimal digits of `n`,
most significant first, with an explicit recursion budget (any budget
above `n` gives the same digits). -/
def natCharsAux : Nat → Nat → List Char
  | 0, _ => []
  | fuel + 1, n =>
    if n < 10 then [digitChar n]
    else natCharsAux fuel (n / 10) ++ [digitChar (n % 10)]

/-- Decimal representation of a natural number (most significant digit
first), as produced by JS number-to-string conversion for integers. -/
def natChars (n : Nat) : List Char := natCharsAux (n + 1) n

/-- Decimal representation of an integer, with a leading minus sign for
negative values. -/
def intChars (i : Int) : List Char :=
  if i < 0 then '-' :: natChars i.natAbs else natChars i.toNat

/-- Lowercase hexadecimal digit for a value `0..15`, as emitted in
`\u00XX` escapes by `JSON.stringify`. -/
def hexDigit : Nat → Char
  | 0 => '0' | 1 => '1' | 2 => '2' | 3 => '3' | 4 => '4'
  | 5 => '5' | 6 => '6' | 7 => '7' | 8 => '8' | 9 => '9'
  | 10 => 'a' | 11 => 'b' | 12 => 'c' | 13 => 'd' | 14 => 'e' | _ => 'f'

/-- `JSON.stringify` escaping of one string character: quotation mark
and backslash get a two-character escape, the five named control
characters get their short escapes, the remaining control characters
get a `\u00XX` escape, and every other character is emitted as-is. -/
def escChar (c : Char) : List Char :=
  if c = '"' then ['\\', '"']
  else if c = '\\' then ['\\', '\\']
  else if c.toNat < 32 then
    if c.toNat = 8 then ['\\', 'b']
    else if c.toNat = 9 then ['\\', 't']
    else if c.toNat = 10 then ['\\', 'n']
    else if c.toNat = 12 then ['\\', 'f']
    else if c.toNat = 13 then ['\\', 'r']
    else ['\\', 'u', '0', '0', hexDigit (c.toNat / 16), hexDigit (c.toNat % 16)]
  else [c]

/-- Escaped body of a string literal. -/
def escStr (s : List Char) : List Char := (s.map escChar).flatten

mutual
/-- `JSON.stringify` of a value (no whitespace is ever emitted). -/
def encode : Json → List Char
  | .null => chars "null"
  | .bool true => chars "true"
  | .bool false => chars "false"
  | .num i => intChars i
  | .str s => '"' :: (escStr s ++ ['"'])
  | .arr xs => '[' :: (encItems xs ++ [']'])
  | .obj ps => '{' :: (encPairs ps ++ ['}'])
termination_by structural v => v

/-- Comma-separated encodings of the elements of an array. -/
def encItems : JsonList → List Char
  | .nil => []
  | .cons v .nil => encode v
  | .cons v (.cons w rest) => encode v ++ ',' :: encItems (.cons w rest)
termination_by structural xs => xs

/-- Comma-separated `"key":value` encodings of the fields of an object. -/
def encPairs : JsonObj → List Char
  | .nil => []
  | .cons k v .nil => '"' :: (escStr k ++ '"' :: ':' :: encode v)
  | .cons k v (.cons k2 v2 rest) =>
    ('"' :: (escStr k ++ '"' :: ':' :: encode v)) ++ ',' :: encPairs (.cons k2 v2 rest)
termination_by structural ps => ps
end

/-! ## The deserialization codec: `JSON.parse`

The parser consumes a list of characters and returns the parsed value
together with the unconsumed remainder, or `none` on a syntax error
(`JSON.parse` throwing).  Recursion through nested values is driven by
a fuel parameter; `decode` supplies fuel exceeding the input length,
which is always sufficient.  `JSON.parse` also skips whitespace between
tokens; the encoder never emits any, and whitespace handling is omitted
from the model. -/

/-- Numeric value of a string of decimal digits (most significant
first). -/
def digitsVal (ds : List Char) : Nat :=
  ds.foldl (fun a c => a * 10 + digitVal c) 0

/-- Lex a nonempty run of decimal digits and return its value and the
remaining input. -/
def lexNat (s : List Char) : Option (Nat × List Char) :=
  let ds := s.takeWhile isDigit
  if ds = [] then none else some (digitsVal ds, s.dropWhile isDigit)

/-- Value of a hexadecimal digit character, `none` for other
characters. -/
def hexVal (c : Char) : Option Nat :=
  if isDigit c then some (c.toNat - 48)
  else if 'a' ≤ c && c ≤ 'f' then some (c.toNat - 87)
  else if 'A' ≤ c && c ≤ 'F' then some (c.toNat - 55)
  else none

/-- Parse the body of a string literal after the opening quote, undoing
the escapes of `escChar`, up to and excluding the closing quote.
Code points that Lean's `Char` cannot represent (lone surrogates) are
rejected; they never occur in encoder output. -/
def parseStrChars : List Char → Option (List Char × List Char)
  | [] => none
  | c :: rest =>
    if c = '"' then some ([], rest)
    else if c = '\\' then
      match rest with
      | [] => none
      | e :: rest1 =>
        if e = '"' then (parseStrChars rest1).map (fun p => ('"' :: p.1, p.2))
        else if e = '\\' then (parseStrChars rest1).map (fun p => ('\\' :: p.1, p.2))
        else if e = '/' then (parseStrChars rest1).map (fun p => ('/' :: p.1, p.2))
        else if e = 'b' then (parseStrChars rest1).map (fun p => (Char.ofNat 8 :: p.1, p.2))
        else if e = 't' then (parseStrChars rest1).map (fun p => (Char.ofNat 9 :: p.1, p.2))
        else if e = 'n' then (parseStrChars rest1).map (fun p => (Char.ofNat 10 :: p.1, p.2))
        else if e = 'f' then (parseStrChars rest1).map (fun p => (Char.ofNat 12 :: p.1, p.2))
        else if e = 'r' then (parseStrChars rest1).map (fun p => (Char.ofNat 13 :: p.1, p.2))
        else if e = 'u' then
          match rest1 with
          | h1 :: h2 :: h3 :: h4 :: rest2 =>
            match hexVal h1, hexVal h2, hexVal h3, hexVal h4 with
            | some a, some b, some c, some d =>
              let n := ((a * 16 + b) * 16 + c) * 16 + d
              if h : n.isValidChar then
                (parseStrChars rest2).map (fun p => (Char.ofNatAux n h :: p.1, p.2))
              else none
            | _, _, _, _ => none
          | _ => none
        else none
    else (parseStrChars rest).map (fun p => (c :: p.1, p.2))

mutual
/-- Parse one JSON value at the head of the input.  The dispatch on the
first character mirrors the JSON grammar: literals, string, array,
object, number. -/
def parseValue : Nat → List Char → Option (Json × List Char)
  | 0, _ => none
  | _ + 1, [] => none
  | fuel + 1, c :: cs =>
    if c = 'n' then
      match cs with
      | 'u' :: 'l' :: 'l' :: r => some (.null, r)
      | _ => none
    else if c = 't' then
      match cs with
      | 'r' :: 'u' :: 'e' :: r => some (.bool true, r)
      | _ => none
    else if c = 'f' then
      match cs with
      | 'a' :: 'l' :: 's' :: 'e' :: r => some (.bool false, r)
      | _ => none
    else if c = '"' then
      (parseStrChars cs).map (fun p => (.str p.1, p.2))
    else if c = '[' then
      match cs with
      | [] => none
      | c2 :: cs2 =>
        if c2 = ']' then some (.arr .nil, cs2)
        else (parseItems fuel (c2 :: cs2)).map (fun p => (.arr p.1, p.2))
    else if c = '{' then
      match cs with
      | [] => none
      | c2 :: cs2 =>
        if c2 = '}' then some (.obj .nil, cs2)
        else (parsePairs fuel (c2 :: cs2)).map (fun p => (.obj p.1, p.2))
    else if c = '-' then
      (lexNat cs).map (fun p => (.num (-(p.1 : Int)), p.2))
    else if isDigit c then
      (lexNat (c :: cs)).map (fun p => (.num (p.1 : Int), p.2))
    else none

/-- Parse the elements of a nonempty array after the opening bracket,
consuming the closing bracket. -/
def parseItems : Nat → List Char → Option (JsonList × List Char)
  | 0, _ => none
  | fuel + 1, s =>
    match parseValue fuel s with
    | none => none
    | some (v, r) =>
      match r with
      | [] => none
      | c :: r2 =>
        if c = ',' then
          match parseItems fuel r2 with
          | none => none
          | some (vs, r3) => some (.cons v vs, r3)
        else if c = ']' then some (.cons v .nil, r2)
        else none

/-- Parse the fields of a nonempty object after the opening brace,
consuming the closing brace. -/
def parsePairs : Nat → List Char → Option (JsonObj × List Char)
  | 0, _ => none
  | fuel + 1, s =>
    match s with
    | [] => none
    | c0 :: s1 =>
      if c0 = '"' then
        match parseStrChars s1 with
        | none => none
        | some (k, r1) =>
          match r1 with
          | [] => none
          | c1 :: r2 =>
            if c1 = ':' then
              match parseValue fuel r2 with
              | none => none
              | some (v, r3) =>
                match r3 with
                | [] => none
                | c3 :: r4 =>
                  if c3 = ',' then
                    match parsePairs fuel r4 with
                    | none => none
                    | some (ps, r5) => some (.cons k v ps, r5)
                  else if c3 = '}' then some (.cons k v .nil, r4)
                  else none
            else none
      else none
end

/-- `JSON.parse`: parse one value and require the whole input to be
consumed; `none` models a thrown `SyntaxError`. -/
def decode (s : List Char) : Option Json :=
  match parseValue (s.length + 1) s with
  | some (v, []) => some v
  | _ => none


/-! ## The Redis backing store

The store is an association list from physical keys to stored textual
payloads, with at most one live entry per key (`storeWrite` overwrites
in place, `storeErase` removes every matching entry). -/

/-- The backing store state: physical key to stored payload. -/
abbrev Store := List (List Char × List Char)

/-- `GET`-style lookup: the payload at a key, `none` when absent. -/
def dbLookup : Store → List Char → Option (List Char)
  | [], _ => none
  | (k0, p0) :: st, k => if k0 = k then some p0 else dbLookup st k

/-- `SET`: overwrite the entry in place, or append a new one. -/
def storeWrite : Store → List Char → List Char → Store
  | [], k, p => [(k, p)]
  | (k0, p0) :: st, k, p =>
    if k0 = k then (k, p) :: st else (k0, p0) :: storeWrite st k p

/-- `DEL`: remove every entry at the key. -/
def storeErase : Store → List Char → Store
  | [], _ => []
  | (k0, p0) :: st, k =>
    if k0 = k then storeErase st k else (k0, p0) :: storeErase st k

/-- Whether a physical key is present in the store. -/
def storeHas (st : Store) (k : List Char) : Bool := (dbLookup st k).isSome

/-- The promisified `redis.set(key, JSON.stringify(value))`.  Redis
replies `OK`, so the promise always resolves `true`; only the updated
store matters to the adapters, which ignore the boolean. -/
def redisSet (st : Store) (k : List Char) (v : Json) : Store :=
  storeWrite st k (encode v)

/-- The promisified `redis.get(key)` followed by `JSON.parse(result)`.
`GET` on an absent key replies nil, and `JSON.parse(null)` coerces its
argument to the string `"null"`, yielding the value `null`.  A payload
that is not valid JSON makes `JSON.parse` throw: `none`. -/
def redisGet (st : Store) (k : List Char) : Option Json :=
  decode ((dbLookup st k).getD (chars "null"))

/-- The promisified `redis.del([key])`: resolves whether exactly one
key was removed, together with the updated store. -/
def redisDelete (st : Store) (k : List Char) : Bool × Store :=
  (storeHas st k, storeErase st k)

/-- `redis.keys(pattern + '*')`: every key with the pattern as a string
prefix, in store order (Redis glob metacharacters in the pattern are
not modelled; adapter patterns are treated literally). -/
def redisKeysWith (st : Store) (pat : List Char) : List (List Char) :=
  (st.map Prod.fst).filter (fun k => pat.isPrefixOf k)

/-! ## The `RedisDatabaseAdapter` (unnamed source file)

Fallible operations return `Option`: `none` models the promise
rejecting (a thrown `JSON.parse` error). -/

namespace RedisDatabaseAdapter

/-- `getPrefixedKey(prefix, key)` joins with an underscore. -/
def getPrefixedKey (pre k : List Char) : List Char := pre ++ '_' :: k

/-- `get(prefix, key)`: parse the payload stored at the prefixed key. -/
def get (st : Store) (pre k : List Char) : Option Json :=
  redisGet st (getPrefixedKey pre k)

/-- `set(prefix, key, obj)`: write only when `!(await this.get(...))`,
i.e. when the current `get` result is falsy; otherwise no write and
`false`. -/
def set (st : Store) (pre k : List Char) (obj : Json) : Option (Bool × Store) :=
  match get st pre k with
  | none => none
  | some j =>
    if j.truthy then some (false, st)
    else some (true, redisSet st (getPrefixedKey pre k) obj)

/-- `remove(prefix, key)`: delete the prefixed key. -/
def remove (st : Store) (pre k : List Char) : Bool × Store :=
  redisDelete st (getPrefixedKey pre k)

/-- The loop body of `redisGetAll`: `get` every enumerated key and
reconstruct a model from each decoded payload via the adapter's
`modelConstructor` (the parameter `recon`).  A rejected `get` rejects
the whole call. -/
def fetchAll {α : Type} (recon : Json → α) (st : Store) : List (List Char) → Option (List α)
  | [] => some []
  | k :: ks =>
    match redisGet st k with
    | none => none
    | some j =>
      match fetchAll recon st ks with
      | none => none
      | some ms => some (recon j :: ms)

/-- `getAll(prefix)`: enumerate keys matching `prefix*`, then fetch and
reconstruct each. -/
def getAll {α : Type} (recon : Json → α) (st : Store) (pre : List Char) : Option (List α) :=
  fetchAll recon st (redisKeysWith st pre)

end RedisDatabaseAdapter

/-! ## The `DatabaseAdapter` variant (bundled in `Routes.ts`)

Its `set` and `remove` derive the physical key as `prefix + key`, but
its `get` (and therefore the reads inside `set` and `update`) pass the
raw `key` to the store unchanged. -/

namespace DatabaseAdapter

/-- `get(prefix, key)` forwards the raw `key` to `redisGet`; the
`prefix` argument is not used. -/
def get (st : Store) (pre k : List Char) : Option Json :=
  redisGet st k

/-- `set(prefix, key, obj)`: presence check via `get` (raw key), write
at `prefix + key`. -/
def set (st : Store) (pre k : List Char) (obj : Json) : Option (Bool × Store) :=
  match get st pre k with
  | none => none
  | some j =>
    if j.truthy then some (false, st)
    else some (true, redisSet st (pre ++ k) obj)

/-- `update(prefix, key, patch)`: read the current object (raw key);
if truthy, `Object.assign` the patch onto it, write it back at the raw
key and return it; otherwise `set` the patch as the full value and
return the patch unchanged. -/
def update (st : Store) (pre k : List Char) (patch : JsonObj) : Option (Json × Store) :=
  match get st pre k with
  | none => none
  | some j =>
    if j.truthy then
      let m := j.assignObj patch
      some (m, redisSet st k m)
    else
      match set st pre k (Json.obj patch) with
      | none => none
      | some (_, st2) => some (Json.obj patch, st2)

/-- `remove(prefix, key)`: delete `prefix + key`. -/
def remove (st : Store) (pre k : List Char) : Bool × Store :=
  redisDelete st (pre ++ k)

end DatabaseAdapter

/-! ## Codec round-trip: numbers -/

theorem char_toNat_inj {a b : Char} (h : a.toNat = b.toNat) : a = b :=
  Char.ext (UInt32.ext h)

theorem isDigit_digitChar (d : Nat) : isDigit (digitChar d) = true := by
  unfold digitChar
  split <;> decide

theorem digitVal_digitChar (d : Nat) (h : d < 10) : digitVal (digitChar d) = d := by
  interval_cases d <;> decide

theorem natCharsAux_digits : ∀ (fuel n : Nat), n < fuel →
    ∀ c ∈ natCharsAux fuel n, isDigit c = true := by
  intro fuel
  induction fuel with
  | zero => intro n h; omega
  | succ f ih =>
    intro n h c hc
    rw [natCharsAux] at hc
    by_cases h10 : n < 10
    · rw [if_pos h10, List.mem_singleton] at hc
      subst hc
      exact isDigit_digitChar _
    · rw [if_neg h10, List.mem_append] at hc
      have hdiv : n / 10 < n := Nat.div_lt_self (by omega) (by omega)
      rcases hc with h1 | h1
      · exact ih (n / 10) (by omega) c h1
      · rw [List.mem_singleton] at h1
        subst h1
        exact isDigit_digitChar _

theorem natCharsAux_cons : ∀ (fuel n : Nat), n < fuel →
    ∃ c t, natCharsAux fuel n = c :: t ∧ isDigit c = true := by
  intro fuel
  induction fuel with
  | zero => intro n h; omega
  | succ f ih =>
    intro n h
    rw [natCharsAux]
    by_cases h10 : n < 10
    · rw [if_pos h10]
      exact ⟨digitChar n, [], rfl, isDigit_digitChar n⟩
    · rw [if_neg h10]
      have hdiv : n / 10 < n := Nat.div_lt_self (by omega) (by omega)
      obtain ⟨c, t, hct, hd⟩ := ih (n / 10) (by omega)
      exact ⟨c, t ++ [digitChar (n % 10)], by rw [hct]; rfl, hd⟩

theorem digitsVal_natCharsAux : ∀ (fuel n : Nat), n < fuel →
    digitsVal (natCharsAux fuel n) = n := by
  intro fuel
  induction fuel with
  | zero => intro n h; omega
  | succ f ih =>
    intro n h
    rw [natCharsAux]
    by_cases h10 : n < 10
    · rw [if_pos h10]
      simp [digitsVal, digitVal_digitChar n (by omega)]
    · rw [if_neg h10]
      have hdiv : n / 10 < n := Nat.div_lt_self (by omega) (by omega)
      have hrec := ih (n / 10) (by omega)
      unfold digitsVal at hrec ⊢
      rw [List.foldl_append, hrec]
      simp [digitVal_digitChar (n % 10) (by omega)]
      omega

theorem natChars_digits (n : Nat) : ∀ c ∈ natChars n, isDigit c = true :=
  natCharsAux_digits (n + 1) n (by omega)

theorem natChars_cons (n : Nat) : ∃ c t, natChars n = c :: t ∧ isDigit c = true :=
  natCharsAux_cons (n + 1) n (by omega)

theorem digitsVal_natChars (n : Nat) : digitsVal (natChars n) = n :=
  digitsVal_natCharsAux (n + 1) n (by omega)

/-- The character after a number token in encoder output is never a
digit: `true` of the empty remainder or a non-digit head. -/
def numSafe : List Char → Bool
  | [] => true
  | c :: _ => !isDigit c

theorem takeWhile_append_all {l r : List Char}
    (h : ∀ c ∈ l, isDigit c = true) :
    (l ++ r).takeWhile isDigit = l ++ r.takeWhile isDigit := by
  induction l with
  | nil => rfl
  | cons c t ihl =>
    rw [List.cons_append, List.takeWhile_cons, h c (List.mem_cons_self c t),
      ihl fun x hx => h x (List.mem_cons_of_mem c hx)]
    simp

theorem dropWhile_append_all {l r : List Char}
    (h : ∀ c ∈ l, isDigit c = true) :
    (l ++ r).dropWhile isDigit = r.dropWhile isDigit := by
  induction l with
  | nil => rfl
  | cons c t ihl =>
    rw [List.cons_append, List.dropWhile_cons, h c (List.mem_cons_self c t)]
    exact ihl fun x hx => h x (List.mem_cons_of_mem c hx)

theorem numSafe_takeWhile {r : List Char} (h : numSafe r = true) :
    r.takeWhile isDigit = [] := by
  cases r with
  | nil => rfl
  | cons c t =>
    have : isDigit c = false := by simpa [numSafe] using h
    simp [List.takeWhile_cons, this]

theorem numSafe_dropWhile {r : List Char} (h : numSafe r = true) :
    r.dropWhile isDigit = r := by
  cases r with
  | nil => rfl
  | cons c t =>
    have : isDigit c = false := by simpa [numSafe] using h
    simp [List.dropWhile_cons, this]

theorem lexNat_natChars (n : Nat) (r : List Char) (h : numSafe r = true) :
    lexNat (natChars n ++ r) = some (n, r) := by
  have htw : (natChars n ++ r).takeWhile isDigit = natChars n := by
    rw [takeWhile_append_all (natChars_digits n), numSafe_takeWhile h, List.append_nil]
  have hdw : (natChars n ++ r).dropWhile isDigit = r := by
    rw [dropWhile_append_all (natChars_digits n), numSafe_dropWhile h]
  obtain ⟨c, t, hct, _⟩ := natChars_cons n
  simp only [lexNat, htw, hdw, digitsVal_natChars]
  rw [hct]
  simp

/-! ## Codec round-trip: strings -/

theorem hexVal_hexDigit (d : Nat) (h : d < 16) : hexVal (hexDigit d) = some d := by
  interval_cases d <;> decide

theorem parseStr_quote (r : List Char) : parseStrChars ('"' :: r) = some ([], r) := by
  conv_lhs => rw [parseStrChars.eq_def]
  simp

theorem parseStr_escQuote (r : List Char) :
    parseStrChars ('\\' :: '"' :: r) = (parseStrChars r).map (fun p => ('"' :: p.1, p.2)) := by
  conv_lhs => rw [parseStrChars.eq_def]
  simp

theorem parseStr_escBackslash (r : List Char) :
    parseStrChars ('\\' :: '\\' :: r) = (parseStrChars r).map (fun p => ('\\' :: p.1, p.2)) := by
  conv_lhs => rw [parseStrChars.eq_def]
  simp

theorem parseStr_escB (r : List Char) :
    parseStrChars ('\\' :: 'b' :: r) = (parseStrChars r).map (fun p => (Char.ofNat 8 :: p.1, p.2)) := by
  conv_lhs => rw [parseStrChars.eq_def]
  simp

theorem parseStr_escT (r : List Char) :
    parseStrChars ('\\' :: 't' :: r) = (parseStrChars r).map (fun p => (Char.ofNat 9 :: p.1, p.2)) := by
  conv_lhs => rw [parseStrChars.eq_def]
  simp

theorem parseStr_escN (r : List Char) :
    parseStrChars ('\\' :: 'n' :: r) = (parseStrChars r).map (fun p => (Char.ofNat 10 :: p.1, p.2)) := by
  conv_lhs => rw [parseStrChars.eq_def]
  simp

theorem parseStr_escF (r : List Char) :
    parseStrChars ('\\' :: 'f' :: r) = (parseStrChars r).map (fun p => (Char.ofNat 12 :: p.1, p.2)) := by
  conv_lhs => rw [parseStrChars.eq_def]
  simp

theorem parseStr_escR (r : List Char) :
    parseStrChars ('\\' :: 'r' :: r) = (parseStrChars r).map (fun p => (Char.ofNat 13 :: p.1, p.2)) := by
  conv_lhs => rw [parseStrChars.eq_def]
  simp

theorem parseStr_escU (a b : Char) (r : List Char) :
    parseStrChars ('\\' :: 'u' :: '0' :: '0' :: a :: b :: r) =
      match hexVal '0', hexVal '0', hexVal a, hexVal b with
      | some x, some y, some z, some w =>
        if h : (((x * 16 + y) * 16 + z) * 16 + w).isValidChar then
          (parseStrChars r).map (fun p => (Char.ofNatAux (((x * 16 + y) * 16 + z) * 16 + w) h :: p.1, p.2))
        else none
      | _, _, _, _ => none := rfl

theorem parseStrChars_escStr (s : List Char) :
    ∀ rest, parseStrChars (escStr s ++ '"' :: rest) = some (s, rest) := by
  induction s with
  | nil =>
    intro rest
    simp [escStr, parseStr_quote]
  | cons c s ih =>
    intro rest
    rw [show escStr (c :: s) = escChar c ++ escStr s by simp [escStr], List.append_assoc]
    by_cases hq : c = '"'
    · subst hq
      rw [show escChar '"' = ['\\', '"'] from rfl]
      simp only [List.cons_append, List.nil_append]
      rw [parseStr_escQuote, ih rest]
      rfl
    by_cases hb : c = '\\'
    · subst hb
      rw [show escChar '\\' = ['\\', '\\'] from rfl]
      simp only [List.cons_append, List.nil_append]
      rw [parseStr_escBackslash, ih rest]
      rfl
    by_cases h32 : c.toNat < 32
    · by_cases h8 : c.toNat = 8
      · have hc : c = Char.ofNat 8 := char_toNat_inj (by rw [h8]; decide)
        subst hc
        rw [show escChar (Char.ofNat 8) = ['\\', 'b'] from rfl]
        simp only [List.cons_append, List.nil_append]
        rw [parseStr_escB, ih rest]
        rfl
      by_cases h9 : c.toNat = 9
      · have hc : c = Char.ofNat 9 := char_toNat_inj (by rw [h9]; decide)
        subst hc
        rw [show escChar (Char.ofNat 9) = ['\\', 't'] from rfl]
        simp only [List.cons_append, List.nil_append]
        rw [parseStr_escT, ih rest]
        rfl
      by_cases h10 : c.toNat = 10
      · have hc : c = Char.ofNat 10 := char_toNat_inj (by rw [h10]; decide)
        subst hc
        rw [show escChar (Char.ofNat 10) = ['\\', 'n'] from rfl]
        simp only [List.cons_append, List.nil_append]
        rw [parseStr_escN, ih rest]
        rfl
      by_cases h12 : c.toNat = 12
      · have hc : c = Char.ofNat 12 := char_toNat_inj (by rw [h12]; decide)
        subst hc
        rw [show escChar (Char.ofNat 12) = ['\\', 'f'] from rfl]
        simp only [List.cons_append, List.nil_append]
        rw [parseStr_escF, ih rest]
        rfl
      by_cases h13 : c.toNat = 13
      · have hc : c = Char.ofNat 13 := char_toNat_inj (by rw [h13]; decide)
        subst hc
        rw [show escChar (Char.ofNat 13) = ['\\', 'r'] from rfl]
        simp only [List.cons_append, List.nil_append]
        rw [parseStr_escR, ih rest]
        rfl
      · rw [escChar, if_neg hq, if_neg hb, if_pos h32, if_neg h8, if_neg h9,
          if_neg h10, if_neg h12, if_neg h13]
        simp only [List.cons_append, List.nil_append]
        rw [parseStr_escU]
        rw [hexVal_hexDigit (c.toNat / 16) (by omega), hexVal_hexDigit (c.toNat % 16) (by omega),
          show hexVal '0' = some 0 from rfl]
        simp only []
        have hval : (((0 * 16 + 0) * 16 + c.toNat / 16) * 16 + c.toNat % 16) = c.toNat := by
          omega
        rw [hval]
        have hv : c.toNat.isValidChar := Or.inl (by omega)
        rw [dif_pos hv, ih rest]
        have hcc : Char.ofNatAux c.toNat hv = c := char_toNat_inj rfl
        rw [hcc]
        rfl
    · rw [escChar, if_neg hq, if_neg hb, if_neg h32]
      simp only [List.cons_append, List.nil_append]
      rw [parseStrChars.eq_def]
      simp only []
      rw [if_neg hq, if_neg hb, ih rest]
      rfl

/-! ## Codec round-trip: values -/

theorem encode_head (v : Json) :
    ∃ c t, encode v = c :: t ∧
      (c = 'n' ∨ c = 't' ∨ c = 'f' ∨ c = '"' ∨ c = '[' ∨ c = '{' ∨ c = '-' ∨ isDigit c = true) := by
  cases v with
  | null => exact ⟨'n', _, rfl, by simp⟩
  | bool b =>
    cases b with
    | true => exact ⟨'t', _, rfl, by simp⟩
    | false => exact ⟨'f', _, rfl, by simp⟩
  | num i =>
    by_cases hneg : i < 0
    · exact ⟨'-', natChars i.natAbs, by simp [encode, intChars, hneg], by simp⟩
    · obtain ⟨c, t, hct, hd⟩ := natChars_cons i.toNat
      exact ⟨c, t, by simp [encode, intChars, hneg, hct], by simp [hd]⟩
  | str s => exact ⟨'"', _, rfl, by simp⟩
  | arr xs => exact ⟨'[', _, rfl, by simp⟩
  | obj ps => exact ⟨'{', _, rfl, by simp⟩

theorem encode_ne_nil (v : Json) : encode v ≠ [] := by
  obtain ⟨c, t, hct, _⟩ := encode_head v
  simp [hct]

theorem encode_length_pos (v : Json) : 1 ≤ (encode v).length := by
  obtain ⟨c, t, hct, _⟩ := encode_head v
  simp [hct]

theorem digit_not_special {c : Char} (h : isDigit c = true) :
    c ≠ 'n' ∧ c ≠ 't' ∧ c ≠ 'f' ∧ c ≠ '"' ∧ c ≠ '[' ∧ c ≠ '{' ∧ c ≠ '-' := by
  refine ⟨?_, ?_, ?_, ?_, ?_, ?_, ?_⟩ <;>
    · intro hc
      subst hc
      exact absurd h (by decide)

theorem encode_head_not_clos (v : Json) :
    ∃ c t, encode v = c :: t ∧ c ≠ ']' ∧ c ≠ '}' := by
  obtain ⟨c, t, hct, hd⟩ := encode_head v
  refine ⟨c, t, hct, ?_, ?_⟩ <;>
    · rcases hd with h | h | h | h | h | h | h | h <;>
        first
          | (subst h; decide)
          | (intro hc; subst hc; exact absurd h (by decide))

set_option maxHeartbeats 1000000 in
theorem parse_encode (fuel : Nat) :
    (∀ v rest, (encode v).length ≤ fuel → numSafe rest = true →
      parseValue fuel (encode v ++ rest) = some (v, rest)) ∧
    (∀ xs rest, xs ≠ JsonList.nil → (encItems xs).length + 1 ≤ fuel →
      parseItems fuel (encItems xs ++ ']' :: rest) = some (xs, rest)) ∧
    (∀ ps rest, ps ≠ JsonObj.nil → (encPairs ps).length + 1 ≤ fuel →
      parsePairs fuel (encPairs ps ++ '}' :: rest) = some (ps, rest)) := by
  induction fuel with
  | zero =>
    refine ⟨?_, ?_, ?_⟩
    · intro v rest hlen _
      exact absurd hlen (by have := encode_length_pos v; omega)
    · intro xs rest _ hlen
      exact absurd hlen (by omega)
    · intro ps rest _ hlen
      exact absurd hlen (by omega)
  | succ f ih =>
    obtain ⟨ihv, ihl, ihp⟩ := ih
    refine ⟨?_, ?_, ?_⟩
    · -- values
      intro v rest hlen hsafe
      cases v with
      | null =>
        rw [show encode Json.null = ['n', 'u', 'l', 'l'] from rfl]
        simp only [List.cons_append, List.nil_append]
        conv_lhs => rw [parseValue.eq_def]
        simp
      | bool b =>
        cases b with
        | true =>
          rw [show encode (Json.bool true) = ['t', 'r', 'u', 'e'] from rfl]
          simp only [List.cons_append, List.nil_append]
          conv_lhs => rw [parseValue.eq_def]
          simp
        | false =>
          rw [show encode (Json.bool false) = ['f', 'a', 'l', 's', 'e'] from rfl]
          simp only [List.cons_append, List.nil_append]
          conv_lhs => rw [parseValue.eq_def]
          simp
      | num i =>
        by_cases hneg : i < 0
        · rw [show encode (Json.num i) = '-' :: natChars i.natAbs by simp [encode, intChars, hneg]]
          simp only [List.cons_append]
          conv_lhs => rw [parseValue.eq_def]
          simp only []
          rw [if_neg (by decide : ¬ ('-' : Char) = 'n'), if_neg (by decide : ¬ ('-' : Char) = 't'),
            if_neg (by decide : ¬ ('-' : Char) = 'f'), if_neg (by decide : ¬ ('-' : Char) = '"'),
            if_neg (by decide : ¬ ('-' : Char) = '['), if_neg (by decide : ¬ ('-' : Char) = '{')]
          simp only [ite_true]
          rw [lexNat_natChars i.natAbs rest hsafe]
          simp [Int.ofNat_natAbs_of_nonpos (le_of_lt hneg)]
        · obtain ⟨c, t, hct, hd⟩ := natChars_cons i.toNat
          obtain ⟨hn, ht, hf, hq, hlb, hlc, hm⟩ := digit_not_special hd
          rw [show encode (Json.num i) = natChars i.toNat by simp [encode, intChars, hneg], hct]
          simp only [List.cons_append]
          conv_lhs => rw [parseValue.eq_def]
          simp only []
          rw [if_neg hn, if_neg ht, if_neg hf, if_neg hq, if_neg hlb, if_neg hlc, if_neg hm,
            if_pos hd]
          rw [show c :: (t ++ rest) = (c :: t) ++ rest from rfl, ← hct,
            lexNat_natChars i.toNat rest hsafe]
          simp [Int.toNat_of_nonneg (show (0 : Int) ≤ i by omega)]
      | str s =>
        rw [show encode (Json.str s) ++ rest = '"' :: (escStr s ++ '"' :: rest) by
          simp [encode]]
        conv_lhs => rw [parseValue.eq_def]
        simp only []
        rw [parseStrChars_escStr s rest]
        simp
      | arr xs =>
        cases xs with
        | nil =>
          rw [show encode (Json.arr JsonList.nil) = ['[', ']'] from rfl]
          simp only [List.cons_append, List.nil_append]
          conv_lhs => rw [parseValue.eq_def]
          simp
        | cons x t =>
          rw [show encode (Json.arr (JsonList.cons x t)) ++ rest =
              '[' :: (encItems (JsonList.cons x t) ++ ']' :: rest) by simp [encode]]
          obtain ⟨c2, l2, hcl, hne1, _⟩ := encode_head_not_clos x
          obtain ⟨l', hl'⟩ : ∃ l', encItems (JsonList.cons x t) = encode x ++ l' := by
            cases t with
            | nil => exact ⟨[], by simp [encItems]⟩
            | cons y t2 => exact ⟨',' :: encItems (JsonList.cons y t2), rfl⟩
          have hcons : encItems (JsonList.cons x t) ++ ']' :: rest =
              c2 :: (l2 ++ (l' ++ ']' :: rest)) := by
            rw [hl', hcl]
            simp
          conv_lhs => rw [parseValue.eq_def]
          simp only []
          rw [if_neg (by decide : ¬ ('[' : Char) = 'n'), if_neg (by decide : ¬ ('[' : Char) = 't'),
            if_neg (by decide : ¬ ('[' : Char) = 'f'), if_neg (by decide : ¬ ('[' : Char) = '"')]
          simp only [ite_true]
          rw [hcons]
          simp only []
          rw [if_neg hne1, ← hcons]
          rw [ihl (JsonList.cons x t) rest (by simp) (by
            have : (encode (Json.arr (JsonList.cons x t))).length =
                (encItems (JsonList.cons x t)).length + 2 := by simp [encode]
            omega)]
          rfl
      | obj ps =>
        cases ps with
        | nil =>
          rw [show encode (Json.obj JsonObj.nil) = ['{', '}'] from rfl]
          simp only [List.cons_append, List.nil_append]
          conv_lhs => rw [parseValue.eq_def]
          simp
        | cons k v t =>
          rw [show encode (Json.obj (JsonObj.cons k v t)) ++ rest =
              '{' :: (encPairs (JsonObj.cons k v t) ++ '}' :: rest) by simp [encode]]
          obtain ⟨l', hl'⟩ : ∃ l', encPairs (JsonObj.cons k v t) = '"' :: l' := by
            cases t with
            | nil => exact ⟨escStr k ++ '"' :: ':' :: encode v, rfl⟩
            | cons k2 v2 t2 =>
              exact ⟨(escStr k ++ '"' :: ':' :: encode v) ++
                ',' :: encPairs (JsonObj.cons k2 v2 t2), rfl⟩
          have hcons : encPairs (JsonObj.cons k v t) ++ '}' :: rest =
              '"' :: (l' ++ '}' :: rest) := by
            rw [hl']
            simp
          conv_lhs => rw [parseValue.eq_def]
          simp only []
          rw [if_neg (by decide : ¬ ('{' : Char) = 'n'), if_neg (by decide : ¬ ('{' : Char) = 't'),
            if_neg (by decide : ¬ ('{' : Char) = 'f'), if_neg (by decide : ¬ ('{' : Char) = '"'),
            if_neg (by decide : ¬ ('{' : Char) = '[')]
          simp only [ite_true]
          rw [hcons]
          simp only []
          rw [if_neg (by decide : ¬ ('"' : Char) = '}'), ← hcons]
          rw [ihp (JsonObj.cons k v t) rest (by simp) (by
            have : (encode (Json.obj (JsonObj.cons k v t))).length =
                (encPairs (JsonObj.cons k v t)).length + 2 := by simp [encode]
            omega)]
          rfl
    · -- array items
      intro xs rest hne hlen
      cases xs with
      | nil => exact absurd rfl hne
      | cons x t =>
        cases t with
        | nil =>
          rw [show encItems (JsonList.cons x JsonList.nil) ++ ']' :: rest =
              encode x ++ ']' :: rest by simp [encItems]]
          conv_lhs => rw [parseItems.eq_def]
          simp only []
          rw [ihv x (']' :: rest) (by
            have : (encItems (JsonList.cons x JsonList.nil)).length = (encode x).length := by
              simp [encItems]
            omega) (by rfl)]
          simp
        | cons y t2 =>
          rw [show encItems (JsonList.cons x (JsonList.cons y t2)) ++ ']' :: rest =
              encode x ++ ',' :: (encItems (JsonList.cons y t2) ++ ']' :: rest) by
            simp [encItems]]
          conv_lhs => rw [parseItems.eq_def]
          simp only []
          rw [ihv x (',' :: (encItems (JsonList.cons y t2) ++ ']' :: rest)) (by
            have : (encItems (JsonList.cons x (JsonList.cons y t2))).length =
                (encode x).length + 1 + (encItems (JsonList.cons y t2)).length := by
              simp [encItems]
              omega
            omega) (by rfl)]
          simp only [ite_true]
          rw [ihl (JsonList.cons y t2) rest (by simp) (by
            have h1 : (encItems (JsonList.cons x (JsonList.cons y t2))).length =
                (encode x).length + 1 + (encItems (JsonList.cons y t2)).length := by
              simp [encItems]
              omega
            have h2 := encode_length_pos x
            omega)]
    · -- object pairs
      intro ps rest hne hlen
      cases ps with
      | nil => exact absurd rfl hne
      | cons k v t =>
        cases t with
        | nil =>
          rw [show encPairs (JsonObj.cons k v JsonObj.nil) ++ '}' :: rest =
              '"' :: (escStr k ++ '"' :: (':' :: (encode v ++ '}' :: rest))) by
            simp [encPairs]]
          conv_lhs => rw [parsePairs.eq_def]
          simp only [ite_true]
          rw [parseStrChars_escStr k (':' :: (encode v ++ '}' :: rest))]
          simp only [ite_true]
          rw [ihv v ('}' :: rest) (by
            have : (encPairs (JsonObj.cons k v JsonObj.nil)).length =
                (escStr k).length + (encode v).length + 3 := by
              simp [encPairs]
              omega
            omega) (by rfl)]
          simp
        | cons k2 v2 t2 =>
          rw [show encPairs (JsonObj.cons k v (JsonObj.cons k2 v2 t2)) ++ '}' :: rest =
              '"' :: (escStr k ++ '"' :: (':' :: (encode v ++
                ',' :: (encPairs (JsonObj.cons k2 v2 t2) ++ '}' :: rest)))) by
            simp [encPairs]]
          conv_lhs => rw [parsePairs.eq_def]
          simp only [ite_true]
          rw [parseStrChars_escStr k (':' :: (encode v ++
            ',' :: (encPairs (JsonObj.cons k2 v2 t2) ++ '}' :: rest)))]
          simp only [ite_true]
          rw [ihv v (',' :: (encPairs (JsonObj.cons k2 v2 t2) ++ '}' :: rest)) (by
            have : (encPairs (JsonObj.cons k v (JsonObj.cons k2 v2 t2))).length =
                (escStr k).length + (encode v).length + 4 +
                  (encPairs (JsonObj.cons k2 v2 t2)).length := by
              simp [encPairs]
              omega
            omega) (by rfl)]
          simp only [ite_true]
          rw [ihp (JsonObj.cons k2 v2 t2) rest (by simp) (by
            have : (encPairs (JsonObj.cons k v (JsonObj.cons k2 v2 t2))).length =
                (escStr k).length + (encode v).length + 4 +
                  (encPairs (JsonObj.cons k2 v2 t2)).length := by
              simp [encPairs]
              omega
            omega)]

theorem decode_encode (v : Json) : decode (encode v) = some v := by
  unfold decode
  have h := (parse_encode ((encode v).length + 1)).1 v [] (by omega) (by rfl)
  rw [List.append_nil] at h
  rw [h]

/-! ## Store lemmas -/

theorem dbLookup_cons_eq {k0 k : List Char} (h : k0 = k) (p0 : List Char) (st : Store) :
    dbLookup ((k0, p0) :: st) k = some p0 := by
  simp [dbLookup, h]

theorem dbLookup_cons_ne {k0 k : List Char} (h : ¬ k0 = k) (p0 : List Char) (st : Store) :
    dbLookup ((k0, p0) :: st) k = dbLookup st k := by
  simp [dbLookup, h]

theorem storeWrite_cons_ne {k0 k : List Char} (h : ¬ k0 = k) (p0 p : List Char) (st : Store) :
    storeWrite ((k0, p0) :: st) k p = (k0, p0) :: storeWrite st k p := by
  simp [storeWrite, h]

theorem dbLookup_storeWrite_self (st : Store) (k p : List Char) :
    dbLookup (storeWrite st k p) k = some p := by
  induction st with
  | nil => simp [storeWrite, dbLookup]
  | cons e st ih =>
    obtain ⟨k0, p0⟩ := e
    by_cases h : k0 = k
    · simp [storeWrite, dbLookup, h]
    · rw [storeWrite_cons_ne h, dbLookup_cons_ne h]
      exact ih

theorem dbLookup_storeErase_self (st : Store) (k : List Char) :
    dbLookup (storeErase st k) k = none := by
  induction st with
  | nil => rfl
  | cons e st ih =>
    obtain ⟨k0, p0⟩ := e
    by_cases h : k0 = k
    · simp [storeErase, h, ih]
    · simp [storeErase, dbLookup, h, ih]

theorem redisGet_nil (k : List Char) : redisGet [] k = some Json.null := rfl

theorem redisGet_redisSet_self (st : Store) (k : List Char) (v : Json) :
    redisGet (redisSet st k v) k = some v := by
  unfold redisGet redisSet
  rw [dbLookup_storeWrite_self]
  simp [decode_encode]

/-! ## `Object.assign` lemmas -/

theorem lookup_setField_self : ∀ (r : JsonObj) (f : List Char) (v : Json),
    (r.setField f v).lookup f = some v
  | .nil, f, v => by simp [JsonObj.setField, JsonObj.lookup]
  | .cons k w rest, f, v => by
    by_cases h : k = f
    · simp [JsonObj.setField, JsonObj.lookup, h]
    · simp [JsonObj.setField, JsonObj.lookup, h, lookup_setField_self rest f v]

theorem lookup_setField_other : ∀ (r : JsonObj) {f g : List Char}, ¬ g = f → ∀ (v : Json),
    (r.setField f v).lookup g = r.lookup g
  | .nil, f, g, h, v => by
    have hfg : ¬ f = g := fun hf => h hf.symm
    simp [JsonObj.setField, JsonObj.lookup, hfg]
  | .cons k w rest, f, g, h, v => by
    by_cases hk : k = f
    · subst hk
      have hkg : ¬ k = g := fun hf => h hf.symm
      simp [JsonObj.setField, JsonObj.lookup, hkg]
    · simp [JsonObj.setField, JsonObj.lookup, hk, lookup_setField_other rest h v]

theorem lookup_assign_not_mem : ∀ (p : JsonObj) (r : JsonObj) (f : List Char),
    p.hasKey f = false → (r.assign p).lookup f = r.lookup f
  | .nil, r, f, _ => rfl
  | .cons g v p', r, f, h => by
    simp [JsonObj.hasKey] at h
    obtain ⟨h1, h2⟩ := h
    show (JsonObj.assign (r.setField g v) p').lookup f = r.lookup f
    rw [lookup_assign_not_mem p' _ f h2, lookup_setField_other _ (fun hf => h1 hf.symm)]

theorem lookup_assign_mem : ∀ (p : JsonObj) (r : JsonObj) (f : List Char),
    p.nodupKeys = true → p.hasKey f = true → (r.assign p).lookup f = p.lookup f
  | .nil, r, f, _, h => by simp [JsonObj.hasKey] at h
  | .cons g v p', r, f, hnd, hk => by
    simp [JsonObj.nodupKeys] at hnd
    obtain ⟨hnd1, hnd2⟩ := hnd
    by_cases hgf : g = f
    · subst hgf
      show (JsonObj.assign (r.setField g v) p').lookup g = (JsonObj.cons g v p').lookup g
      rw [lookup_assign_not_mem p' _ g (by simpa using hnd1), lookup_setField_self]
      simp [JsonObj.lookup]
    · have hk2 : p'.hasKey f = true := by
        simpa [JsonObj.hasKey, hgf] using hk
      show (JsonObj.assign (r.setField g v) p').lookup f = (JsonObj.cons g v p').lookup f
      rw [lookup_assign_mem p' _ f hnd2 hk2]
      simp [JsonObj.lookup, hgf]

/-! ## Claim theorems -/

theorem underscore_split : ∀ (p1 p2 k1 k2 : List Char), '_' ∉ p1 → '_' ∉ p2 →
    p1 ++ '_' :: k1 = p2 ++ '_' :: k2 → p1 = p2 ∧ k1 = k2
  | [], [], k1, k2, _, _, heq => by simpa using heq
  | [], c :: p2', k1, k2, _, h2, heq => by
    simp at heq
    exact absurd (heq.1 ▸ List.mem_cons_self c p2') h2
  | c :: p1', [], k1, k2, h1, _, heq => by
    simp at heq
    exact absurd (heq.1.symm ▸ List.mem_cons_self c p1') h1
  | c :: p1', d :: p2', k1, k2, h1, h2, heq => by
    simp only [List.cons_append, List.cons.injEq] at heq
    obtain ⟨hcd, htail⟩ := heq
    have ih := underscore_split p1' p2' k1 k2
      (fun h => h1 (List.mem_cons_of_mem c h)) (fun h => h2 (List.mem_cons_of_mem d h)) htail
    exact ⟨by rw [hcd, ih.1], ih.2⟩

/-- Claim C6, counterexample: the physical-key derivation `prefix + '_' + key`
is not injective on all distinct (prefix, key) pairs — ("a", "b_c") and
("a_b", "c") derive the same physical key "a_b_c". -/
theorem C6_counterexample :
    RedisDatabaseAdapter.getPrefixedKey (chars "a") (chars "b_c") =
        RedisDatabaseAdapter.getPrefixedKey (chars "a_b") (chars "c") ∧
      (chars "a", chars "b_c") ≠ (chars "a_b", chars "c") := by
  decide

/-- Claim C6, amended: the derivation (prefix, key) to prefix + '_' + key is a
deterministic pure function, and it is injective across distinct pairs
provided the delimiter '_' does not occur in either prefix. -/
theorem C6_pk_injective (p1 k1 p2 k2 : List Char)
    (h1 : '_' ∉ p1) (h2 : '_' ∉ p2) (hne : (p1, k1) ≠ (p2, k2)) :
    RedisDatabaseAdapter.getPrefixedKey p1 k1 ≠ RedisDatabaseAdapter.getPrefixedKey p2 k2 := by
  intro heq
  obtain ⟨hp, hk⟩ := underscore_split p1 p2 k1 k2 h1 h2 heq
  exact hne (by rw [hp, hk])

/-- Witness for claim C6's amended theorem at two distinct keys under
the same underscore-free prefix. -/
theorem C6_witness :
    RedisDatabaseAdapter.getPrefixedKey (chars "user") (chars "1") ≠
      RedisDatabaseAdapter.getPrefixedKey (chars "user") (chars "2") :=
  C6_pk_injective (chars "user") (chars "1") (chars "user") (chars "2")
    (by decide) (by decide) (by decide)

/-- Claim C7: for every encodable value, deserializing its serialization
(`JSON.parse` of `JSON.stringify`) yields the value back unchanged. -/
theorem C7_codec_roundtrip : ∀ v : Json, decode (encode v) = some v :=
  decode_encode

/-- Claim C8: `remove` resolves `true` exactly when the physical key was
present (a deletion occurred), `false` when it was absent, and after a
successful removal a subsequent `get` reports the key absent (the
adapter's "not found" result, the parsed `null`). -/
theorem C8_remove (st : Store) (pre k : List Char) :
    ((RedisDatabaseAdapter.remove st pre k).1 = true ↔
      storeHas st (RedisDatabaseAdapter.getPrefixedKey pre k) = true) ∧
    ((RedisDatabaseAdapter.remove st pre k).1 = true →
      RedisDatabaseAdapter.get (RedisDatabaseAdapter.remove st pre k).2 pre k =
        some Json.null) := by
  constructor
  · exact Iff.rfl
  · intro _
    unfold RedisDatabaseAdapter.remove redisDelete RedisDatabaseAdapter.get redisGet
    simp only []
    rw [dbLookup_storeErase_self]
    rfl

/-- Witness for claim C8 at a one-entry store. -/
theorem C8_witness :
    (RedisDatabaseAdapter.remove [(chars "u_k", chars "1")] (chars "u") (chars "k")).1 = true ∧
      RedisDatabaseAdapter.get
        (RedisDatabaseAdapter.remove [(chars "u_k", chars "1")] (chars "u") (chars "k")).2
        (chars "u") (chars "k") = some Json.null :=
  ⟨(C8_remove [(chars "u_k", chars "1")] (chars "u") (chars "k")).1.mpr (by decide),
    (C8_remove [(chars "u_k", chars "1")] (chars "u") (chars "k")).2 (by decide)⟩

/-- Claim C9: presence for `set` is decided by the truthiness of the decoded
stored value, not physical-key existence: when the stored payload decodes
to a falsy value, `set` treats the key as absent, overwrites the payload
with the encoding of the new value, and returns `true`. -/
theorem C9_set_falsy (st : Store) (pre k payload : List Char) (j v : Json)
    (hlk : dbLookup st (RedisDatabaseAdapter.getPrefixedKey pre k) = some payload)
    (hdec : decode payload = some j) (hfalsy : j.truthy = false) :
    RedisDatabaseAdapter.set st pre k v =
        some (true, redisSet st (RedisDatabaseAdapter.getPrefixedKey pre k) v) ∧
      dbLookup (redisSet st (RedisDatabaseAdapter.getPrefixedKey pre k) v)
        (RedisDatabaseAdapter.getPrefixedKey pre k) = some (encode v) := by
  constructor
  · unfold RedisDatabaseAdapter.set RedisDatabaseAdapter.get redisGet
    rw [hlk]
    simp only [Option.getD_some]
    rw [hdec]
    simp [hfalsy]
  · exact dbLookup_storeWrite_self st _ (encode v)

/-- Witness for claim C9 at a store whose payload decodes to the falsy
value 0. -/
theorem C9_witness :
    RedisDatabaseAdapter.set [(chars "u_k", chars "0")] (chars "u") (chars "k") (Json.num 5) =
        some (true, redisSet [(chars "u_k", chars "0")]
          (RedisDatabaseAdapter.getPrefixedKey (chars "u") (chars "k")) (Json.num 5)) ∧
      dbLookup (redisSet [(chars "u_k", chars "0")]
          (RedisDatabaseAdapter.getPrefixedKey (chars "u") (chars "k")) (Json.num 5))
        (RedisDatabaseAdapter.getPrefixedKey (chars "u") (chars "k")) =
        some (encode (Json.num 5)) :=
  C9_set_falsy [(chars "u_k", chars "0")] (chars "u") (chars "k") (chars "0")
    (Json.num 0) (Json.num 5) (by decide) (by decide) (by decide)

/-- Claim C2, counterexample: in the source, "Present" for `set` is not
"the physical key holds an encoded payload": here the physical key
"user_42" holds the encoded payload "0", yet `set` writes and returns
`true`, replacing the stored payload. -/
theorem C2_counterexample :
    RedisDatabaseAdapter.set [(chars "user_42", chars "0")] (chars "user") (chars "42")
        (Json.num 7) =
      some (true, [(chars "user_42", chars "7")]) := by
  decide

/-- Claim C2, amended: `set` on a key whose stored payload decodes to a
truthy value performs no write, returns `false`, and leaves the store
(hence the stored payload) unchanged. -/
theorem C2_set_present (st : Store) (pre k payload : List Char) (j v : Json)
    (hlk : dbLookup st (RedisDatabaseAdapter.getPrefixedKey pre k) = some payload)
    (hdec : decode payload = some j) (htr : j.truthy = true) :
    RedisDatabaseAdapter.set st pre k v = some (false, st) := by
  unfold RedisDatabaseAdapter.set RedisDatabaseAdapter.get redisGet
  rw [hlk]
  simp only [Option.getD_some]
  rw [hdec]
  simp [htr]

/-- Witness for claim C2's amended theorem at a concrete store holding a
truthy payload. -/
theorem C2_witness :
    RedisDatabaseAdapter.set [(chars "u_k", chars "1")] (chars "u") (chars "k") (Json.num 5) =
      some (false, [(chars "u_k", chars "1")]) :=
  C2_set_present [(chars "u_k", chars "1")] (chars "u") (chars "k") (chars "1")
    (Json.num 1) (Json.num 5) (by decide) (by decide) (by decide)

/-- Claim C10: in the `DatabaseAdapter` variant, `get` does not depend on
the prefix argument — for every store, key and pair of prefixes the
results coincide, because the raw key is passed to the store unchanged. -/
theorem C10_get_ignores_prefix_arg (st : Store) (k p1 p2 : List Char) :
    DatabaseAdapter.get st p1 k = DatabaseAdapter.get st p2 k := rfl

/-- Claim C1 (failing input): in the `DatabaseAdapter` variant, on an empty
store `set("user", "42", {name: "Ann"})` returns `true` and writes the
payload at physical key "user42", yet the immediately subsequent
`get("user", "42")` reads the raw key "42" and returns the parsed `null`
("not found"), not a record equal to the stored value. -/
theorem C1_set_get_mismatch :
    DatabaseAdapter.set [] (chars "user") (chars "42")
        (Json.obj (JsonObj.cons (chars "name") (Json.str (chars "Ann")) JsonObj.nil)) =
      some (true, [(chars "user42",
        encode (Json.obj (JsonObj.cons (chars "name") (Json.str (chars "Ann")) JsonObj.nil)))]) ∧
    DatabaseAdapter.get [(chars "user42",
        encode (Json.obj (JsonObj.cons (chars "name") (Json.str (chars "Ann")) JsonObj.nil)))]
      (chars "user") (chars "42") = some Json.null := by
  constructor
  · decide
  · decide

/-- Claim C3: `update` on a key holding a stored record merges the patch
over the record (patch fields win, other fields keep their stored
values), writes the merged record back, returns it, and a subsequent
`get` returns the merged record. -/
theorem C3_update_present (st : Store) (pre k : List Char) (r patch : JsonObj)
    (hget : DatabaseAdapter.get st pre k = some (Json.obj r))
    (hnd : patch.nodupKeys = true) :
    DatabaseAdapter.update st pre k patch =
        some (Json.obj (r.assign patch), redisSet st k (Json.obj (r.assign patch))) ∧
      DatabaseAdapter.get (redisSet st k (Json.obj (r.assign patch))) pre k =
        some (Json.obj (r.assign patch)) ∧
      (∀ f, patch.hasKey f = true → (r.assign patch).lookup f = patch.lookup f) ∧
      (∀ f, patch.hasKey f = false → (r.assign patch).lookup f = r.lookup f) := by
  refine ⟨?_, ?_, ?_, ?_⟩
  · unfold DatabaseAdapter.update
    rw [hget]
    simp [Json.truthy, Json.assignObj]
  · unfold DatabaseAdapter.get
    exact redisGet_redisSet_self st k _
  · intro f hf
    exact lookup_assign_mem patch r f hnd hf
  · intro f hf
    exact lookup_assign_not_mem patch r f hf

/-- Witness for claim C3 at a concrete store holding the record
(name: Ann) patched with (age: 30). -/
theorem C3_witness :
    DatabaseAdapter.update
        [(chars "42", encode (Json.obj (JsonObj.cons (chars "name") (Json.str (chars "Ann")) JsonObj.nil)))]
        (chars "user") (chars "42") (JsonObj.cons (chars "age") (Json.num 30) JsonObj.nil) =
        some (Json.obj ((JsonObj.cons (chars "name") (Json.str (chars "Ann")) JsonObj.nil).assign
            (JsonObj.cons (chars "age") (Json.num 30) JsonObj.nil)),
          redisSet [(chars "42", encode (Json.obj (JsonObj.cons (chars "name") (Json.str (chars "Ann")) JsonObj.nil)))]
            (chars "42")
            (Json.obj ((JsonObj.cons (chars "name") (Json.str (chars "Ann")) JsonObj.nil).assign
              (JsonObj.cons (chars "age") (Json.num 30) JsonObj.nil)))) ∧
      DatabaseAdapter.get
          (redisSet [(chars "42", encode (Json.obj (JsonObj.cons (chars "name") (Json.str (chars "Ann")) JsonObj.nil)))]
            (chars "42")
            (Json.obj ((JsonObj.cons (chars "name") (Json.str (chars "Ann")) JsonObj.nil).assign
              (JsonObj.cons (chars "age") (Json.num 30) JsonObj.nil))))
          (chars "user") (chars "42") =
        some (Json.obj ((JsonObj.cons (chars "name") (Json.str (chars "Ann")) JsonObj.nil).assign
          (JsonObj.cons (chars "age") (Json.num 30) JsonObj.nil))) ∧
      (∀ f, (JsonObj.cons (chars "age") (Json.num 30) JsonObj.nil).hasKey f = true →
        (((JsonObj.cons (chars "name") (Json.str (chars "Ann")) JsonObj.nil).assign
          (JsonObj.cons (chars "age") (Json.num 30) JsonObj.nil)).lookup f =
          (JsonObj.cons (chars "age") (Json.num 30) JsonObj.nil).lookup f)) ∧
      (∀ f, (JsonObj.cons (chars "age") (Json.num 30) JsonObj.nil).hasKey f = false →
        (((JsonObj.cons (chars "name") (Json.str (chars "Ann")) JsonObj.nil).assign
          (JsonObj.cons (chars "age") (Json.num 30) JsonObj.nil)).lookup f =
          (JsonObj.cons (chars "name") (Json.str (chars "Ann")) JsonObj.nil).lookup f)) :=
  C3_update_present
    [(chars "42", encode (Json.obj (JsonObj.cons (chars "name") (Json.str (chars "Ann")) JsonObj.nil)))]
    (chars "user") (chars "42")
    (JsonObj.cons (chars "name") (Json.str (chars "Ann")) JsonObj.nil)
    (JsonObj.cons (chars "age") (Json.num 30) JsonObj.nil)
    (by decide) (by decide)

/-- Claim C4: `update` on an absent key has the same effect on the store as
`set` with the patch as the full initial value, and returns the patch
itself unchanged (no merge occurs). -/
theorem C4_update_absent (st : Store) (pre k : List Char) (patch : JsonObj)
    (habs : dbLookup st k = none) :
    DatabaseAdapter.update st pre k patch =
        some (Json.obj patch, redisSet st (pre ++ k) (Json.obj patch)) ∧
      DatabaseAdapter.set st pre k (Json.obj patch) =
        some (true, redisSet st (pre ++ k) (Json.obj patch)) := by
  have hget : DatabaseAdapter.get st pre k = some Json.null := by
    unfold DatabaseAdapter.get redisGet
    rw [habs]
    rfl
  have hset : DatabaseAdapter.set st pre k (Json.obj patch) =
      some (true, redisSet st (pre ++ k) (Json.obj patch)) := by
    unfold DatabaseAdapter.set
    rw [hget]
    simp [Json.truthy]
  refine ⟨?_, hset⟩
  unfold DatabaseAdapter.update
  rw [hget]
  simp [Json.truthy, hset]

/-- Witness for claim C4 on the empty store. -/
theorem C4_witness :
    DatabaseAdapter.update [] (chars "user") (chars "42")
        (JsonObj.cons (chars "age") (Json.num 30) JsonObj.nil) =
        some (Json.obj (JsonObj.cons (chars "age") (Json.num 30) JsonObj.nil),
          redisSet [] (chars "user" ++ chars "42")
            (Json.obj (JsonObj.cons (chars "age") (Json.num 30) JsonObj.nil))) ∧
      DatabaseAdapter.set [] (chars "user") (chars "42")
          (Json.obj (JsonObj.cons (chars "age") (Json.num 30) JsonObj.nil)) =
        some (true, redisSet [] (chars "user" ++ chars "42")
          (Json.obj (JsonObj.cons (chars "age") (Json.num 30) JsonObj.nil))) :=
  C4_update_absent [] (chars "user") (chars "42")
    (JsonObj.cons (chars "age") (Json.num 30) JsonObj.nil) (by decide)

/-- Claim C5, counterexample: with prefix "user" and the unrelated
prefix "userx", the store built by inserting records at (user, a),
(user, b) and (userx, c) makes getAll("user") return three records,
including the one stored under (userx, c), because the enumeration
pattern "user*" also matches the physical key "userx_c". -/
theorem C5_counterexample :
    RedisDatabaseAdapter.set [] (chars "user") (chars "a") (Json.num 1) =
        some (true, [(chars "user_a", chars "1")]) ∧
      RedisDatabaseAdapter.set [(chars "user_a", chars "1")] (chars "user") (chars "b")
          (Json.num 2) =
        some (true, [(chars "user_a", chars "1"), (chars "user_b", chars "2")]) ∧
      RedisDatabaseAdapter.set [(chars "user_a", chars "1"), (chars "user_b", chars "2")]
          (chars "userx") (chars "c") (Json.num 3) =
        some (true, [(chars "user_a", chars "1"), (chars "user_b", chars "2"),
          (chars "userx_c", chars "3")]) ∧
      RedisDatabaseAdapter.getAll (fun j => j)
          [(chars "user_a", chars "1"), (chars "user_b", chars "2"), (chars "userx_c", chars "3")]
          (chars "user") =
        some [Json.num 1, Json.num 2, Json.num 3] := by
  refine ⟨by decide, by decide, by decide, by decide⟩

/-- Claim C5, amended: if the prefix is not a string prefix of the
physical key derived from (otherPrefix, "c"), then after inserting
records at (prefix, a), (prefix, b) and (otherPrefix, c), getAll on the
prefix returns exactly the two records reconstructed from the payloads
stored under (prefix, a) and (prefix, b), and nothing else. -/
theorem C5_getAll {α : Type} (recon : Json → α) (p q : List Char) (va vb vc : Json)
    (hq : p.isPrefixOf (RedisDatabaseAdapter.getPrefixedKey q (chars "c")) = false) :
    ∃ st1 st2 st3,
      RedisDatabaseAdapter.set [] p (chars "a") va = some (true, st1) ∧
      RedisDatabaseAdapter.set st1 p (chars "b") vb = some (true, st2) ∧
      RedisDatabaseAdapter.set st2 q (chars "c") vc = some (true, st3) ∧
      RedisDatabaseAdapter.getAll recon st3 p = some [recon va, recon vb] := by
  have hABne : RedisDatabaseAdapter.getPrefixedKey p (chars "a") ≠
      RedisDatabaseAdapter.getPrefixedKey p (chars "b") := by
    intro h
    unfold RedisDatabaseAdapter.getPrefixedKey at h
    have h2 := List.append_cancel_left h
    simp [chars] at h2
  have hlast : ∀ (l : List Char) (x : Char), (l ++ '_' :: [x]).getLast? = some x := by
    intro l x
    rw [show l ++ '_' :: [x] = (l ++ ['_']) ++ [x] by simp]
    exact List.getLast?_concat _
  have hACne : RedisDatabaseAdapter.getPrefixedKey p (chars "a") ≠
      RedisDatabaseAdapter.getPrefixedKey q (chars "c") := by
    intro h
    unfold RedisDatabaseAdapter.getPrefixedKey at h
    have h2 := congrArg List.getLast? h
    simp only [show chars "a" = ['a'] from rfl, show chars "c" = ['c'] from rfl] at h2
    rw [hlast p 'a', hlast q 'c'] at h2
    simp at h2
  have hBCne : RedisDatabaseAdapter.getPrefixedKey p (chars "b") ≠
      RedisDatabaseAdapter.getPrefixedKey q (chars "c") := by
    intro h
    unfold RedisDatabaseAdapter.getPrefixedKey at h
    have h2 := congrArg List.getLast? h
    simp only [show chars "b" = ['b'] from rfl, show chars "c" = ['c'] from rfl] at h2
    rw [hlast p 'b', hlast q 'c'] at h2
    simp at h2
  have hPA : p.isPrefixOf (RedisDatabaseAdapter.getPrefixedKey p (chars "a")) = true := by
    unfold RedisDatabaseAdapter.getPrefixedKey
    rw [List.isPrefixOf_iff_prefix]
    exact List.prefix_append p _
  have hPB : p.isPrefixOf (RedisDatabaseAdapter.getPrefixedKey p (chars "b")) = true := by
    unfold RedisDatabaseAdapter.getPrefixedKey
    rw [List.isPrefixOf_iff_prefix]
    exact List.prefix_append p _
  refine ⟨[(RedisDatabaseAdapter.getPrefixedKey p (chars "a"), encode va)],
    [(RedisDatabaseAdapter.getPrefixedKey p (chars "a"), encode va),
      (RedisDatabaseAdapter.getPrefixedKey p (chars "b"), encode vb)],
    [(RedisDatabaseAdapter.getPrefixedKey p (chars "a"), encode va),
      (RedisDatabaseAdapter.getPrefixedKey p (chars "b"), encode vb),
      (RedisDatabaseAdapter.getPrefixedKey q (chars "c"), encode vc)],
    ?_, ?_, ?_, ?_⟩
  · rfl
  · have hgB : RedisDatabaseAdapter.get
        [(RedisDatabaseAdapter.getPrefixedKey p (chars "a"), encode va)] p (chars "b") =
        some Json.null := by
      unfold RedisDatabaseAdapter.get redisGet
      rw [dbLookup_cons_ne hABne]
      rfl
    unfold RedisDatabaseAdapter.set
    rw [hgB]
    simp only [Json.truthy, Bool.false_eq_true, if_false]
    unfold redisSet
    rw [storeWrite_cons_ne hABne]
    rfl
  · have hgC : RedisDatabaseAdapter.get
        [(RedisDatabaseAdapter.getPrefixedKey p (chars "a"), encode va),
          (RedisDatabaseAdapter.getPrefixedKey p (chars "b"), encode vb)] q (chars "c") =
        some Json.null := by
      unfold RedisDatabaseAdapter.get redisGet
      rw [dbLookup_cons_ne hACne, dbLookup_cons_ne hBCne]
      rfl
    unfold RedisDatabaseAdapter.set
    rw [hgC]
    simp only [Json.truthy, Bool.false_eq_true, if_false]
    unfold redisSet
    rw [storeWrite_cons_ne hACne, storeWrite_cons_ne hBCne]
    rfl
  · have hgA3 : redisGet
        [(RedisDatabaseAdapter.getPrefixedKey p (chars "a"), encode va),
          (RedisDatabaseAdapter.getPrefixedKey p (chars "b"), encode vb),
          (RedisDatabaseAdapter.getPrefixedKey q (chars "c"), encode vc)]
        (RedisDatabaseAdapter.getPrefixedKey p (chars "a")) = some va := by
      unfold redisGet
      rw [dbLookup_cons_eq rfl]
      simp [decode_encode]
    have hgB3 : redisGet
        [(RedisDatabaseAdapter.getPrefixedKey p (chars "a"), encode va),
          (RedisDatabaseAdapter.getPrefixedKey p (chars "b"), encode vb),
          (RedisDatabaseAdapter.getPrefixedKey q (chars "c"), encode vc)]
        (RedisDatabaseAdapter.getPrefixedKey p (chars "b")) = some vb := by
      unfold redisGet
      rw [dbLookup_cons_ne hABne, dbLookup_cons_eq rfl]
      simp [decode_encode]
    unfold RedisDatabaseAdapter.getAll redisKeysWith
    simp only [List.map_cons, List.map_nil, List.filter_cons, List.filter_nil, hPA, hPB, hq]
    simp only [RedisDatabaseAdapter.fetchAll, hgA3, hgB3]

/-- Witness for claim C5's amended theorem with the prefixes "user"
and "other". -/
theorem C5_witness :
    ∃ st1 st2 st3,
      RedisDatabaseAdapter.set [] (chars "user") (chars "a") (Json.num 1) = some (true, st1) ∧
      RedisDatabaseAdapter.set st1 (chars "user") (chars "b") (Json.num 2) = some (true, st2) ∧
      RedisDatabaseAdapter.set st2 (chars "other") (chars "c") (Json.num 3) = some (true, st3) ∧
      RedisDatabaseAdapter.getAll (fun j => j) st3 (chars "user") =
        some [Json.num 1, Json.num 2] :=
  C5_getAll (fun j => j) (chars "user") (chars "other") (Json.num 1) (Json.num 2) (Json.num 3)
    (by decide)

/-- Supporting fact for claim C1: the `RedisDatabaseAdapter` variant does
satisfy the set-then-get property, since its `get` reads the same
prefixed physical key its `set` writes. -/
theorem redisAdapter_set_get (st st2 : Store) (pre k : List Char) (v : Json)
    (h : RedisDatabaseAdapter.set st pre k v = some (true, st2)) :
    RedisDatabaseAdapter.get st2 pre k = some v := by
  unfold RedisDatabaseAdapter.set at h
  cases hg : RedisDatabaseAdapter.get st pre k with
  | none =>
    rw [hg] at h
    simp at h
  | some j =>
    rw [hg] at h
    by_cases ht : j.truthy
    · simp [ht] at h
    · simp [ht] at h
      rw [← h]
      exact redisGet_redisSet_self st _ v
